import Mathlib

/-!
# Verification of the Lao grammar checker (segmenter + validator)

Shallow embedding of the repository's two core functions:

* `LaoWordSplitter.split` (src/index.ts, class `LaoWordSplitter`): a single
  left-to-right scan over the zero-width-space-stripped input, maintaining a
  buffer `currentWord` and its start index, and emitting `LaoWordInfo` spans.
* `checkLaoWordGrammar` / `laoGrammarChecker` (src/laoGrammarChecker.ts,
  extended rule-table version): word-level guards, a per-character rule scan
  (rules 1-10), and final consonant-count checks.

Strings are modelled as `List Char`; indices are positions in that list,
matching the source's code-unit indexing (every character handled specially
by the code lies in the Lao block U+0E80-U+0EFF, inside the BMP).
The JS character-class `Set`s become boolean membership functions.
Helper functions keep their source names.  The JS loop's early
`return false` statements inside the validator's character loop are modelled
as a conjunction over all indices (`scanOk`): every early return yields
`false`, the per-index checks are pure, and the character counters are not
consulted before the loop ends, so the two renderings agree extensionally.
-/

namespace LaoChecker

/-- A segmented word span: `{ word, startIndex, endIndex }` from
`LaoWordSplitter.ts`.  Indices are inclusive positions in the stripped input. -/
structure LaoWordInfo where
  word : List Char
  startIndex : Nat
  endIndex : Nat
  deriving DecidableEq, Repr

/-- A span annotated with the validator's verdict (`LaoGrammarCheckResult`). -/
structure LaoGrammarCheckResult where
  word : List Char
  startIndex : Nat
  endIndex : Nat
  grammarCorrect : Bool
  deriving DecidableEq, Repr

namespace LaoWordSplitter

/-- `LAO_CONSONANTS` of `LaoWordSplitter`: 27 base consonants plus the two
irregular digraph letters. -/
def LAO_CONSONANTS (c : Char) : Bool :=
  (['ກ', 'ຂ', 'ຄ', 'ງ', 'ຈ', 'ສ', 'ຊ', 'ຍ', 'ດ', 'ຕ', 'ຖ', 'ທ', 'ນ',
    'ບ', 'ປ', 'ຜ', 'ຝ', 'ພ', 'ຟ', 'ມ', 'ຢ', 'ຣ', 'ລ', 'ວ', 'ຫ', 'ອ', 'ຮ',
    'ໜ', 'ໝ'] : List Char).contains c

/-- `LEADING_VOWELS` of `LaoWordSplitter`: characters that may open a word. -/
def LEADING_VOWELS (c : Char) : Bool :=
  (['ເ', 'ແ', 'ໂ', 'ໄ', 'ໃ'] : List Char).contains c

/-- `MIDDLE_CHARS` of `LaoWordSplitter`: vowels, tones and other marks that
attach inside a word. -/
def MIDDLE_CHARS (c : Char) : Bool :=
  (['ະ', 'າ', 'ິ', 'ີ', 'ຶ', 'ື', 'ຸ', 'ູ',
    'ໍ', 'ຳ', '່', '້', '໊', '໋', 'ຼ', '໌', 'ຽ', 'ັ', 'ົ'] : List Char).contains c

/-- `DIGRAPH_FOLLOWERS`: consonants that may follow 'ຫ' to form a digraph. -/
def DIGRAPH_FOLLOWERS (c : Char) : Bool :=
  (['ງ', 'ຍ', 'ລ', 'ວ', 'ຣ'] : List Char).contains c

/-- `MAI_YAMOK`: the repetition mark that the splitter treats specially. -/
def MAI_YAMOK : Char := 'ໆ'

/-- `isLaoCharacter`: codepoint lies in the Lao Unicode block U+0E80-U+0EFF. -/
def isLaoCharacter (c : Char) : Bool :=
  0x0E80 ≤ c.toNat && c.toNat ≤ 0x0EFF

/-- `removeZeroWidthSpaces`: drop every U+200B from the input
(`text.replace(/​/g, '')`). -/
def removeZeroWidthSpaces (text : List Char) : List Char :=
  text.filter (fun c => !(c == '​'))

/-- The last character of the buffer (`currentWord[currentWord.length - 1]`),
`none` standing for the empty-string result the source gets on an empty
buffer. -/
def lastCharOf (cur : List Char) : Option Char :=
  cur.getLast?

/-- The second-to-last character of the buffer
(`currentWord.length > 1 ? currentWord[currentWord.length - 2] : ''`). -/
def secondLastCharOf (cur : List Char) : Option Char :=
  if 1 < cur.length then cur.get? (cur.length - 2) else none

/-- Option-level character-class test: JS set membership on a possibly
absent character (`''` / `null` never belongs to a set). -/
def optIs (p : Char → Bool) : Option Char → Bool
  | some c => p c
  | none => false

/-- `addWordToResult`: push the buffer (if non-empty) as a span ending at
`i - 1`; the returned fresh buffer and start index are inlined at the call
sites of the embedding. -/
def addWordToResult (cur : List Char) (acc : List LaoWordInfo) (i start : Nat) :
    List LaoWordInfo :=
  if cur.length > 0 then acc ++ [⟨cur, start, i - 1⟩] else acc

/-- Common body of `handleConsonantVSequence`, `handleConsonantRSequence` and
`handleDigraphSequence`: flush everything before the last two buffered
characters (span ending at `i - 3`), and restart the buffer as that pair plus
the current character, starting at `i - 2`.  Returns
(new result array, new buffer, new start index). -/
def handleTwoCharCluster (cur : List Char) (c : Char) (acc : List LaoWordInfo)
    (i start : Nat) : List LaoWordInfo × List Char × Nat :=
  let pair := cur.drop (cur.length - 2)
  let wordBefore := cur.take (cur.length - 2)
  let acc' := if wordBefore.length > 0 then acc ++ [⟨wordBefore, start, i - 3⟩] else acc
  (acc', pair ++ [c], i - 2)

/-- Common body of `handleRegularMiddleChar` and `handleVaOrOSequence`: flush
the buffer minus its last character (span ending at `i - 2`), restart the
buffer as that last character plus the current one, starting at `i - 1`. -/
def handleSplitBeforeLast (cur : List Char) (c : Char) (acc : List LaoWordInfo)
    (i start : Nat) : List LaoWordInfo × List Char × Nat :=
  let lastChar := cur.drop (cur.length - 1)
  let wordWithoutLast := cur.take (cur.length - 1)
  let acc' := if wordWithoutLast.length > 0 then acc ++ [⟨wordWithoutLast, start, i - 2⟩] else acc
  (acc', lastChar ++ [c], i - 1)

/-- One iteration of the scanning loop of `LaoWordSplitter.split`: given the
character `c` at index `i`, the raw lookahead character, the buffer `cur`
with start index `start` and the spans `acc` emitted so far, apply the
source's guards in their priority order and return the new
(result array, buffer, buffer start index).  Every guard of the source ends
in `continue`, so each loop iteration is exactly one such state update. -/
def splitStep (c : Char) (nextChar : Option Char) (i : Nat) (cur : List Char)
    (start : Nat) (acc : List LaoWordInfo) : List LaoWordInfo × List Char × Nat :=
  -- GUARD: space: flush buffer, emit the space as its own span
  if c == ' ' then
    (addWordToResult cur acc i start ++ [⟨[' '], i, i⟩], [], i + 1)
  -- GUARD: non-Lao character
  else if !isLaoCharacter c then
    if optIs isLaoCharacter (lastCharOf cur) then
      (addWordToResult cur acc i start, [c], i)
    else
      (acc, cur ++ [c], start)
  -- GUARD: Mai Yamok: flush buffer, start a new buffer holding 'ໆ'
  else if c == MAI_YAMOK then
    (addWordToResult cur acc i start, [MAI_YAMOK], i)
  -- GUARD: leading vowels start a new word (double-'ເ' appends instead)
  else if LEADING_VOWELS c then
    if c == 'ເ' && lastCharOf cur == some 'ເ' then
      (acc, cur ++ [c], start)
    else
      (addWordToResult cur acc i start, [c], i)
  -- GUARD: transition from a non-Lao buffer to a Lao character
  else if !optIs isLaoCharacter (lastCharOf cur) && cur.length > 0 then
    (addWordToResult cur acc i start, [c], i)
  -- GUARD: middle characters
  else if MIDDLE_CHARS c then
    if cur.length == 0 then
      (acc, [c], start)
    else if optIs MIDDLE_CHARS (lastCharOf cur) ||
        (c == 'ັ' && cur.length ≥ 2 && optIs LEADING_VOWELS (secondLastCharOf cur)) then
      (acc, cur ++ [c], start)
    -- consonant + 'ວ' cluster (ກວ, ຂວ, ຄວ): handleConsonantVSequence
    else if cur.length ≥ 2 && lastCharOf cur == some 'ວ' &&
        (secondLastCharOf cur == some 'ກ' || secondLastCharOf cur == some 'ຂ' ||
         secondLastCharOf cur == some 'ຄ') then
      handleTwoCharCluster cur c acc i start
    -- consonant + 'ຣ' cluster (ທຣ, ປຣ, ກຣ, ບຣ, ຟຣ): handleConsonantRSequence
    else if cur.length ≥ 2 && lastCharOf cur == some 'ຣ' &&
        (secondLastCharOf cur == some 'ທ' || secondLastCharOf cur == some 'ປ' ||
         secondLastCharOf cur == some 'ກ' || secondLastCharOf cur == some 'ບ' ||
         secondLastCharOf cur == some 'ຟ') then
      handleTwoCharCluster cur c acc i start
    -- 'ຫ' digraph: handleDigraphSequence
    else if cur.length ≥ 2 && secondLastCharOf cur == some 'ຫ' &&
        optIs DIGRAPH_FOLLOWERS (lastCharOf cur) then
      handleTwoCharCluster cur c acc i start
    -- regular middle character: split before the last consonant unless it is
    -- protected by a leading vowel two positions back
    else if optIs LAO_CONSONANTS (lastCharOf cur) &&
        !(cur.length ≥ 2 && optIs LEADING_VOWELS (secondLastCharOf cur)) then
      handleSplitBeforeLast cur c acc i start
    else
      (acc, cur ++ [c], start)
  -- GUARD: 'ວ' or 'ອ' between two consonants: handleVaOrOSequence
  else if (c == 'ວ' || c == 'ອ') && cur.length > 0 &&
      optIs LAO_CONSONANTS (lastCharOf cur) &&
      optIs (fun n => isLaoCharacter n && LAO_CONSONANTS n) nextChar then
    handleSplitBeforeLast cur c acc i start
  -- DEFAULT: append
  else
    (acc, cur ++ [c], start)

/-- The scanning loop of `LaoWordSplitter.split`: `rest` is the unread suffix
of the stripped input, `i` the index of its first character, `cur` /
`start` the in-progress buffer and its start index, `acc` the spans emitted so
far.  The lookahead `nextChar` is the head of the remaining input.  When the
input is exhausted the remaining buffer is flushed with `endIndex = i - 1`;
the source writes `sentence.length - 1` there, and `i` equals the stripped
sentence's length at that point. -/
def splitLoop : List Char → Nat → List Char → Nat → List LaoWordInfo → List LaoWordInfo
  | [], i, cur, start, acc =>
      if cur.length > 0 then acc ++ [⟨cur, start, i - 1⟩] else acc
  | c :: rest, i, cur, start, acc =>
      let s := splitStep c rest.head? i cur start acc
      splitLoop rest (i + 1) s.2.1 s.2.2 s.1

/-- `LaoWordSplitter.split`: empty check, zero-width-space stripping, the
scan, and the defensive final filter of empty spans. -/
def split (sentence : List Char) : List LaoWordInfo :=
  if sentence.length == 0 then []
  else (splitLoop (removeZeroWidthSpaces sentence) 0 [] 0 []).filter
    (fun w => w.word.length > 0)

end LaoWordSplitter

/-! ## The grammar validator (`laoGrammarChecker.ts`, extended rule table)

The repository's checker file carries two successive versions of the rule
table; the extended version (two- and three-character word guards and rules
7-10) supersedes the basic one and is embedded here. -/

namespace GrammarChecker

/-- `LAO_CONSONANTS` of `laoGrammarChecker.ts` (same 29 letters as the
splitter's set). -/
def LAO_CONSONANTS (c : Char) : Bool :=
  (['ກ', 'ຂ', 'ຄ', 'ງ', 'ຈ', 'ສ', 'ຊ', 'ຍ', 'ດ', 'ຕ', 'ຖ', 'ທ', 'ນ',
    'ບ', 'ປ', 'ຜ', 'ຝ', 'ພ', 'ຟ', 'ມ', 'ຢ', 'ຣ', 'ລ', 'ວ', 'ຫ', 'ອ', 'ຮ',
    'ໜ', 'ໝ'] : List Char).contains c

/-- `LEADING_VOWELS_RULE1_AND_3`: the validator's leading-vowel set, which
(unlike the splitter's guard set usage) also drives rule 3.4 and includes
'ໃ'. -/
def LEADING_VOWELS_RULE1_AND_3 (c : Char) : Bool :=
  (['ເ', 'ແ', 'ໂ', 'ໄ', 'ໃ'] : List Char).contains c

/-- `TOP_VOWELS_RULE2`. -/
def TOP_VOWELS_RULE2 (c : Char) : Bool :=
  (['ິ', 'ີ', 'ຶ', 'ື'] : List Char).contains c

/-- `TONE_MARKS_RULE3`. -/
def TONE_MARKS_RULE3 (c : Char) : Bool :=
  (['່', '້'] : List Char).contains c

/-- `OTHER_DIACRITICS_RULE4`. -/
def OTHER_DIACRITICS_RULE4 (c : Char) : Bool :=
  (['໊', '໋', 'ໍ', '໌', 'ົ', 'ັ', 'ິ', 'ີ', 'ຶ', 'ື', 'ຸ', 'ູ', 'ຼ'] : List Char).contains c

/-- `VOWEL_IA_RULE5`. -/
def VOWEL_IA_RULE5 : Char := 'ຽ'

/-- `VOWELS_A_AA_RULE6`. -/
def VOWELS_A_AA_RULE6 (c : Char) : Bool :=
  (['ະ', 'າ'] : List Char).contains c

/-- `VOWELS_RULE7`. -/
def VOWELS_RULE7 (c : Char) : Bool :=
  (['ະ', 'າ', 'ິ', 'ີ', 'ຶ', 'ື', 'ຸ', 'ູ', 'ໍ', 'ຼ', 'ັ', 'ົ'] : List Char).contains c

/-- `VOWELS_DIACRITICS_RULE8`. -/
def VOWELS_DIACRITICS_RULE8 (c : Char) : Bool :=
  (['ະ', 'າ', 'ິ', 'ີ', 'ຶ', 'ື', 'ຸ', 'ູ', 'ໍ', 'ຼ', '໊', 'ັ', 'ົ',
    '່', '້', '໋', '໌', 'ຽ'] : List Char).contains c

/-- `TONES_CANCEL_RULE9`. -/
def TONES_CANCEL_RULE9 (c : Char) : Bool :=
  (['່', '້', '໋', '໌'] : List Char).contains c

/-- `VOWELS_A_IA_RULE10`. -/
def VOWELS_A_IA_RULE10 (c : Char) : Bool :=
  (['າ', 'ຽ'] : List Char).contains c

/-- `VOWELS_DIACRITICS_RULE10_PREV`. -/
def VOWELS_DIACRITICS_RULE10_PREV (c : Char) : Bool :=
  (['ະ', 'າ', 'ິ', 'ີ', 'ຶ', 'ື', 'ຸ', 'ູ', 'ໍ', '໊', 'ັ', 'ົ',
    '໋', '໌', 'ຽ'] : List Char).contains c

/-- `COUNTABLE_VOWELS_DIACRITICS` (same contents as the rule-8 set). -/
def COUNTABLE_VOWELS_DIACRITICS (c : Char) : Bool :=
  (['ະ', 'າ', 'ິ', 'ີ', 'ຶ', 'ື', 'ຸ', 'ູ', 'ໍ', 'ຼ', '໊', 'ັ', 'ົ',
    '່', '້', '໋', '໌', 'ຽ'] : List Char).contains c

/-- `isLaoCharacter` (checker copy, identical to the splitter's). -/
def isLaoCharacter (c : Char) : Bool :=
  0x0E80 ≤ c.toNat && c.toNat ≤ 0x0EFF

/-- The character at `i - k`, `none` past the left edge
(`i > k-1 ? word[i-k] : null`). -/
def prevCharAt (w : List Char) (i k : Nat) : Option Char :=
  if k ≤ i then w.get? (i - k) else none

/-- JS set membership on a possibly absent (`null`) character. -/
def optIs (p : Char → Bool) : Option Char → Bool
  | some c => p c
  | none => false

/-- The rule checks of the validator's character loop at one index: rules 1-6
form an if/else chain (first matching class decides); rules 7-10 run for
every character on top of that.  `true` means no rule fired at this index. -/
def ruleOkAt (w : List Char) (i : Nat) : Bool :=
  let currentChar := w.getD i ' '
  let previousChar := prevCharAt w i 1
  let previousChar2 := prevCharAt w i 2
  let previousChar3 := prevCharAt w i 3
  let nextChar := w.get? (i + 1)
  let nextChar2 := w.get? (i + 2)
  let primary :=
    -- Rule 1
    if LEADING_VOWELS_RULE1_AND_3 currentChar then
      if i ≠ 0 then
        -- 1.1: only the second 'ເ' of a doubled pair is allowed past index 0
        currentChar == 'ເ' && i == 1 && previousChar == some 'ເ'
      else
        -- 1.2: the next character must be a consonant (or a second 'ເ')
        match nextChar with
        | none => false
        | some n => LAO_CONSONANTS n || (currentChar == 'ເ' && n == 'ເ')
    -- Rule 2
    else if TOP_VOWELS_RULE2 currentChar then
      optIs LAO_CONSONANTS previousChar
    -- Rule 3
    else if TONE_MARKS_RULE3 currentChar then
      -- 3.1
      (optIs LAO_CONSONANTS previousChar || optIs LAO_CONSONANTS previousChar2) &&
      -- 3.2
      !(w.length ≤ 2 && nextChar == none) &&
      -- 3.3
      !(i == 1 && w.length < 3) &&
      -- 3.4
      !(LEADING_VOWELS_RULE1_AND_3 (w.getD 0 ' ') &&
        optIs LAO_CONSONANTS nextChar && optIs LAO_CONSONANTS nextChar2) &&
      -- 3.5
      !(w.length == 3 && optIs LAO_CONSONANTS previousChar &&
        optIs LAO_CONSONANTS nextChar)
    -- Rule 4
    else if OTHER_DIACRITICS_RULE4 currentChar && !TOP_VOWELS_RULE2 currentChar then
      optIs LAO_CONSONANTS previousChar
    -- Rule 5
    else if currentChar == VOWEL_IA_RULE5 then
      optIs LAO_CONSONANTS nextChar
    -- Rule 6
    else if VOWELS_A_AA_RULE6 currentChar then
      optIs LAO_CONSONANTS previousChar || optIs LAO_CONSONANTS previousChar2 ||
        optIs LAO_CONSONANTS previousChar3
    else true
  primary &&
    -- Rule 7
    !(VOWELS_RULE7 currentChar && optIs VOWELS_RULE7 nextChar) &&
    -- Rule 8 (the 'ເເ' exemption is kept although 'ເ' is outside the set)
    !(VOWELS_DIACRITICS_RULE8 currentChar && optIs VOWELS_DIACRITICS_RULE8 nextChar &&
      nextChar == some currentChar && !(currentChar == 'ເ' && nextChar == some 'ເ')) &&
    -- Rule 9
    !(TONES_CANCEL_RULE9 currentChar && optIs TONES_CANCEL_RULE9 nextChar) &&
    -- Rule 10
    !(VOWELS_A_IA_RULE10 currentChar &&
      (optIs VOWELS_DIACRITICS_RULE10_PREV previousChar ||
       (optIs LAO_CONSONANTS nextChar && optIs LAO_CONSONANTS nextChar2)))

/-- The character loop succeeds: no per-index rule fires (each early
`return false` of the source loop corresponds to one failing index). -/
def scanOk (w : List Char) : Bool :=
  (List.range w.length).all (fun i => ruleOkAt w i)

/-- `consonantCount` accumulated by the loop. -/
def consonantCount (w : List Char) : Nat :=
  w.countP (fun c => LAO_CONSONANTS c)

/-- The conjunction of the word-level guards falling through, so that the
word reaches the character scan of `checkLaoWordGrammar`. -/
def passesWordGuards (w : List Char) : Bool :=
  !(w == [' ']) && !(w.length == 0) && !(w.length == 1) && !(w == ['ຳ']) &&
  isLaoCharacter (w.getD 0 ' ') &&
  !(w.length == 2 && LAO_CONSONANTS (w.getD 0 ' ') && LAO_CONSONANTS (w.getD 1 ' ')) &&
  !(w.length == 2 && w.getD 0 ' ' == w.getD 1 ' ' && !(w == ['ເ', 'ເ'])) &&
  !(w.length == 3 && w.getD 0 ' ' == w.getD 1 ' ' && w.getD 1 ' ' == w.getD 2 ' ')

/-- `vowelCount` accumulated by the loop (tracked, not used by the final
decision). -/
def vowelCount (w : List Char) : Nat :=
  w.countP (fun c => !LAO_CONSONANTS c && COUNTABLE_VOWELS_DIACRITICS c)

/-- `checkLaoWordGrammar` (extended version): word-level guards, the
character scan, and the final consonant-count checks. -/
def checkLaoWordGrammar (w : List Char) : Bool :=
  -- space is always correct
  if w == [' '] then true
  -- Guard 0: empty word
  else if w.length == 0 then false
  -- Guard 1: single character, valid only for Mai Yamok
  else if w.length == 1 then w == ['ໆ']
  -- Guard 2: a bare 'ຳ'
  else if w == ['ຳ'] then false
  -- Guard 3: non-Lao first character
  else if !isLaoCharacter (w.getD 0 ' ') then true
  -- Guard 4.1: two consecutive consonants
  else if w.length == 2 && LAO_CONSONANTS (w.getD 0 ' ') && LAO_CONSONANTS (w.getD 1 ' ') then
    false
  -- Guard 4.2: identical pair other than 'ເເ'
  else if w.length == 2 && w.getD 0 ' ' == w.getD 1 ' ' && !(w == ['ເ', 'ເ']) then false
  -- Guard 5: three identical characters
  else if w.length == 3 && w.getD 0 ' ' == w.getD 1 ' ' && w.getD 1 ' ' == w.getD 2 ' ' then
    false
  -- character loop (an early return there yields false)
  else if !scanOk w then false
  -- post-loop: no consonants
  else if consonantCount w == 0 then false
  -- post-loop: more than 4 consonants
  else if consonantCount w > 4 then false
  else true

end GrammarChecker

/-- `laoGrammarChecker`: split the sentence, then annotate each span with the
validator's verdict. -/
def laoGrammarChecker (sentence : List Char) : List LaoGrammarCheckResult :=
  (LaoWordSplitter.split sentence).map fun wordInfo =>
    { word := wordInfo.word
      startIndex := wordInfo.startIndex
      endIndex := wordInfo.endIndex
      grammarCorrect := GrammarChecker.checkLaoWordGrammar wordInfo.word }

/-- `laoGrammarCheck` (src/index.ts): the exported entry point. -/
def laoGrammarCheck (sentence : List Char) : List LaoGrammarCheckResult :=
  laoGrammarChecker sentence

/-! ## Observables used by the specification's invariants -/

/-- Total length of the span texts. -/
def sumLens (spans : List LaoWordInfo) : Nat :=
  (spans.map (fun sp => sp.word.length)).sum

/-- Concatenation of the span texts, in order. -/
def concatWords (spans : List LaoWordInfo) : List Char :=
  (spans.map (fun sp => sp.word)).flatten

/-- The spans form a contiguous, ordered chain starting at `pos`: each span
starts where the previous one ended plus one, has non-empty text, and its
inclusive `endIndex` matches its text length. -/
def chainFromB : Nat → List LaoWordInfo → Bool
  | _, [] => true
  | pos, sp :: rest =>
      (sp.startIndex == pos) && decide (0 < sp.word.length) &&
        (sp.endIndex + 1 == pos + sp.word.length) && chainFromB (pos + sp.word.length) rest

/-- A word is script-homogeneous: all of its characters are in the Lao block,
or none is. -/
def scriptHomogeneous (w : List Char) : Bool :=
  w.all (fun c => LaoWordSplitter.isLaoCharacter c) ||
    w.all (fun c => !LaoWordSplitter.isLaoCharacter c)

/-- Mai Yamok occurs only as a word's first character. -/
def yamokInitialOnly (w : List Char) : Bool :=
  (w.drop 1).all (fun c => !(c == 'ໆ'))

open LaoWordSplitter

/-- The two per-word side invariants carried through the scan. -/
def goodWord (w : List Char) : Prop :=
  scriptHomogeneous w = true ∧ yamokInitialOnly w = true

/-- Invariant tying the loop state together: the buffer spans positions
`start..i-1`, the emitted spans chain from 0 up to `start`, and every word
seen so far is script-homogeneous with Mai Yamok only in initial position. -/
def StateInv (acc : List LaoWordInfo) (cur : List Char) (start i : Nat) : Prop :=
  start + cur.length = i ∧
  chainFromB 0 acc = true ∧
  sumLens acc = start ∧
  (∀ sp ∈ acc, goodWord sp.word) ∧
  goodWord cur

/-! ## List-level helper lemmas -/

lemma bool_eq_false {b : Bool} (h : ¬ b = true) : b = false := by
  cases b
  · rfl
  · exact absurd rfl h

lemma mem_of_getLast?_eq {l : List Char} {a : Char} (h : l.getLast? = some a) :
    a ∈ l := by
  obtain ⟨hne, rfl⟩ := List.mem_getLast?_eq_getLast (show a ∈ l.getLast? from h)
  exact List.getLast_mem hne

lemma all_take {p : Char → Bool} {l : List Char} (k : Nat) (h : l.all p = true) :
    (l.take k).all p = true :=
  List.all_eq_true.mpr fun x hx => List.all_eq_true.mp h x ((List.take_sublist k l).subset hx)

lemma all_drop {p : Char → Bool} {l : List Char} (k : Nat) (h : l.all p = true) :
    (l.drop k).all p = true :=
  List.all_eq_true.mpr fun x hx => List.all_eq_true.mp h x ((List.drop_sublist k l).subset hx)

lemma sumLens_append (a b : List LaoWordInfo) :
    sumLens (a ++ b) = sumLens a + sumLens b := by
  simp [sumLens]

lemma concatWords_append (a b : List LaoWordInfo) :
    concatWords (a ++ b) = concatWords a ++ concatWords b := by
  simp [concatWords]

lemma length_concatWords (spans : List LaoWordInfo) :
    (concatWords spans).length = sumLens spans := by
  simp [concatWords, sumLens, Function.comp_def]

lemma chainFromB_append (a b : List LaoWordInfo) (pos : Nat) :
    chainFromB pos (a ++ b) = (chainFromB pos a && chainFromB (pos + sumLens a) b) := by
  induction a generalizing pos with
  | nil => simp [chainFromB, sumLens]
  | cons sp t ih =>
      have hs : sumLens (sp :: t) = sp.word.length + sumLens t := by simp [sumLens]
      simp only [List.cons_append, chainFromB, List.append_eq, ih, hs, ← Nat.add_assoc,
        Bool.and_assoc]

lemma chainFromB_words_ne_nil {pos : Nat} {l : List LaoWordInfo}
    (h : chainFromB pos l = true) : ∀ sp ∈ l, 0 < sp.word.length := by
  induction l generalizing pos with
  | nil => intro sp hsp; simp at hsp
  | cons a t ih =>
      intro sp hsp
      simp only [chainFromB, Bool.and_eq_true, beq_iff_eq, decide_eq_true_eq] at h
      rcases List.mem_cons.mp hsp with rfl | hmem
      · exact h.1.1.2
      · exact ih h.2 sp hmem

lemma chainFromB_getLast {pos : Nat} {l : List LaoWordInfo}
    (h : chainFromB pos l = true) :
    ∀ sp, l.getLast? = some sp → sp.endIndex + 1 = pos + sumLens l := by
  induction l generalizing pos with
  | nil => intro sp hsp; simp at hsp
  | cons a t ih =>
      intro sp hsp
      simp only [chainFromB, Bool.and_eq_true, beq_iff_eq, decide_eq_true_eq] at h
      cases t with
      | nil =>
          simp only [List.getLast?_singleton, Option.some_inj] at hsp
          subst hsp
          simpa [sumLens] using h.1.2
      | cons b u =>
          rw [List.getLast?_cons_cons] at hsp
          have := ih h.2 sp hsp
          simp only [sumLens, List.map_cons, List.sum_cons] at this ⊢
          omega

lemma chainFromB_head {pos : Nat} {sp : LaoWordInfo} {t : List LaoWordInfo}
    (h : chainFromB pos (sp :: t) = true) : sp.startIndex = pos := by
  simp only [chainFromB, Bool.and_eq_true, beq_iff_eq] at h
  exact h.1.1.1

lemma scriptHomogeneous_singleton (c : Char) : scriptHomogeneous [c] = true := by
  by_cases h : LaoWordSplitter.isLaoCharacter c <;> simp [scriptHomogeneous, h]

lemma yamokInitialOnly_singleton (c : Char) : yamokInitialOnly [c] = true := by
  simp [yamokInitialOnly]

lemma all_lao_of_homog_last {cur : List Char}
    (h : scriptHomogeneous cur = true)
    (hl : LaoWordSplitter.optIs LaoWordSplitter.isLaoCharacter
      (LaoWordSplitter.lastCharOf cur) = true) :
    cur.all (fun c => LaoWordSplitter.isLaoCharacter c) = true := by
  rcases Bool.or_eq_true_iff.mp h with hall | hnone
  · exact hall
  · cases hcur : LaoWordSplitter.lastCharOf cur with
    | none => rw [hcur] at hl; simp [LaoWordSplitter.optIs] at hl
    | some a =>
        rw [hcur] at hl
        have hmem : a ∈ cur := mem_of_getLast?_eq hcur
        have := List.all_eq_true.mp hnone a hmem
        simp only [LaoWordSplitter.optIs] at hl
        simp [hl] at this

lemma all_nonlao_of_homog_last {cur : List Char}
    (h : scriptHomogeneous cur = true)
    (hl : LaoWordSplitter.optIs LaoWordSplitter.isLaoCharacter
      (LaoWordSplitter.lastCharOf cur) = false) :
    cur.all (fun c => !LaoWordSplitter.isLaoCharacter c) = true := by
  rcases Bool.or_eq_true_iff.mp h with hall | hnone
  · refine List.all_eq_true.mpr fun x hx => ?_
    cases cur with
    | nil => simp at hx
    | cons a t =>
        exfalso
        have hsome : ∃ b, LaoWordSplitter.lastCharOf (a :: t) = some b := by
          simp [LaoWordSplitter.lastCharOf, List.getLast?_eq_getLast_of_ne_nil]
        obtain ⟨b, hb⟩ := hsome
        rw [hb] at hl
        simp only [LaoWordSplitter.optIs] at hl
        have := List.all_eq_true.mp hall b (mem_of_getLast?_eq hb)
        simp [hl] at this
  · exact hnone

lemma homog_append_lao {cur : List Char} {c : Char}
    (hall : cur.all (fun x => LaoWordSplitter.isLaoCharacter x) = true)
    (hc : LaoWordSplitter.isLaoCharacter c = true) :
    scriptHomogeneous (cur ++ [c]) = true := by
  unfold scriptHomogeneous
  rw [List.all_append]
  simp [hall, hc]

lemma homog_append_nonlao {cur : List Char} {c : Char}
    (hall : cur.all (fun x => !LaoWordSplitter.isLaoCharacter x) = true)
    (hc : LaoWordSplitter.isLaoCharacter c = false) :
    scriptHomogeneous (cur ++ [c]) = true := by
  unfold scriptHomogeneous
  rw [List.all_append, List.all_append]
  simp [hall, hc]

lemma homog_take {cur : List Char} (k : Nat) (h : scriptHomogeneous cur = true) :
    scriptHomogeneous (cur.take k) = true := by
  rcases Bool.or_eq_true_iff.mp h with hall | hnone
  · exact Bool.or_eq_true_iff.mpr (Or.inl (all_take k hall))
  · exact Bool.or_eq_true_iff.mpr (Or.inr (all_take k hnone))

lemma yamok_take {cur : List Char} (k : Nat) (h : yamokInitialOnly cur = true) :
    yamokInitialOnly (cur.take k) = true := by
  unfold yamokInitialOnly at h ⊢
  refine List.all_eq_true.mpr fun x hx => List.all_eq_true.mp h x ?_
  have h1 : (cur.take k).drop 1 = (cur.drop 1).take (k - 1) := by
    rw [List.drop_take]
  rw [h1] at hx
  exact (List.take_sublist _ _).subset hx

lemma yamok_append {cur : List Char} {c : Char} (h : yamokInitialOnly cur = true)
    (hc : cur = [] ∨ (c == 'ໆ') = false) :
    yamokInitialOnly (cur ++ [c]) = true := by
  cases cur with
  | nil => simpa using yamokInitialOnly_singleton c
  | cons a t =>
      rcases hc with hnil | hne
      · simp at hnil
      · unfold yamokInitialOnly at h ⊢
        simp only [List.cons_append, List.drop_succ_cons, List.drop_zero] at h ⊢
        rw [List.all_append]
        simp [h, hne]

lemma yamok_dropTail {cur : List Char} (k : Nat)
    (h : yamokInitialOnly cur = true) :
    yamokInitialOnly (cur.drop (cur.length - k)) = true := by
  unfold yamokInitialOnly at h ⊢
  rw [List.drop_drop]
  have h2 : cur.drop (cur.length - k + 1) = (cur.drop 1).drop (cur.length - k) := by
    rw [List.drop_drop]
    congr 1
    omega
  rw [h2]
  exact all_drop _ h

lemma chainFromB_singleton (pos : Nat) (sp : LaoWordInfo)
    (h1 : sp.startIndex = pos) (h2 : 0 < sp.word.length)
    (h3 : sp.endIndex + 1 = pos + sp.word.length) : chainFromB pos [sp] = true := by
  simp [chainFromB, h1, h2, h3]

lemma sumLens_singleton (sp : LaoWordInfo) : sumLens [sp] = sp.word.length := by
  simp [sumLens]

lemma concatWords_singleton (sp : LaoWordInfo) : concatWords [sp] = sp.word := by
  simp [concatWords]

/-! ## The splitter's loop invariant -/

lemma goodWord_nil : goodWord [] := by
  constructor <;> simp [scriptHomogeneous, yamokInitialOnly]

lemma goodWord_singleton (c : Char) : goodWord [c] :=
  ⟨scriptHomogeneous_singleton c, yamokInitialOnly_singleton c⟩

lemma addWordToResult_inv {acc : List LaoWordInfo} {cur : List Char} {start i : Nat}
    (h : StateInv acc cur start i) :
    chainFromB 0 (addWordToResult cur acc i start) = true ∧
    sumLens (addWordToResult cur acc i start) = i ∧
    (∀ sp ∈ addWordToResult cur acc i start, goodWord sp.word) ∧
    concatWords (addWordToResult cur acc i start) = concatWords acc ++ cur := by
  obtain ⟨hlen, hchain, hsum, hgood, hbuf⟩ := h
  unfold addWordToResult
  by_cases hc : cur.length > 0
  · rw [if_pos hc]
    refine ⟨?_, ?_, ?_, ?_⟩
    · rw [chainFromB_append, hchain, Bool.true_and, Nat.zero_add, hsum]
      exact chainFromB_singleton start _ rfl hc (by simp only []; omega)
    · rw [sumLens_append, sumLens_singleton]
      show sumLens acc + cur.length = i
      omega
    · intro sp hsp
      rcases List.mem_append.mp hsp with hmem | hmem
      · exact hgood sp hmem
      · simp only [List.mem_singleton] at hmem
        subst hmem
        exact hbuf
    · rw [concatWords_append, concatWords_singleton]
  · rw [if_neg hc]
    have hcur : cur = [] := List.length_eq_zero.mp (by omega)
    subst hcur
    simp only [List.length_nil, Nat.add_zero] at hlen
    subst hlen
    exact ⟨hchain, hsum, hgood, by simp⟩

lemma stepInv_append {acc : List LaoWordInfo} {cur : List Char} {start i : Nat} {c : Char}
    (h : StateInv acc cur start i) (hg : goodWord (cur ++ [c])) :
    StateInv acc (cur ++ [c]) start (i + 1) ∧
    concatWords acc ++ (cur ++ [c]) = concatWords acc ++ cur ++ [c] := by
  obtain ⟨hlen, hchain, hsum, hgood, _⟩ := h
  refine ⟨⟨?_, hchain, hsum, hgood, hg⟩, by simp⟩
  simp only [List.length_append, List.length_singleton]
  omega

lemma stepInv_flush {acc : List LaoWordInfo} {cur : List Char} {start i : Nat}
    (h : StateInv acc cur start i) (c' : Char) :
    StateInv (addWordToResult cur acc i start) [c'] i (i + 1) ∧
    concatWords (addWordToResult cur acc i start) ++ [c'] =
      concatWords acc ++ cur ++ [c'] := by
  obtain ⟨hchain, hsum, hgood, hconcat⟩ := addWordToResult_inv h
  refine ⟨⟨by simp, hchain, hsum, hgood, goodWord_singleton c'⟩, by rw [hconcat]⟩

lemma stepInv_dropTail {acc : List LaoWordInfo} {cur : List Char} {start i : Nat} {c : Char}
    (k : Nat) (h : StateInv acc cur start i) (hk : 1 ≤ k) (hn : k ≤ cur.length)
    (hlao : cur.all (fun x => isLaoCharacter x) = true)
    (hc : isLaoCharacter c = true) (hcy : (c == 'ໆ') = false)
    (acc' : List LaoWordInfo)
    (hacc : acc' = if (cur.take (cur.length - k)).length > 0
      then acc ++ [⟨cur.take (cur.length - k), start, i - (k + 1)⟩] else acc) :
    StateInv acc' (cur.drop (cur.length - k) ++ [c]) (i - k) (i + 1) ∧
    concatWords acc' ++ (cur.drop (cur.length - k) ++ [c]) =
      concatWords acc ++ cur ++ [c] := by
  obtain ⟨hlen, hchain, hsum, hgood, hbuf⟩ := h
  have hdroplen : (cur.drop (cur.length - k)).length = k := by
    rw [List.length_drop]; omega
  have htakelen : (cur.take (cur.length - k)).length = cur.length - k := by
    rw [List.length_take]; omega
  have hgooddrop : goodWord (cur.drop (cur.length - k) ++ [c]) := by
    constructor
    · exact homog_append_lao (all_drop _ hlao) hc
    · exact yamok_append (yamok_dropTail k hbuf.2) (Or.inr hcy)
  by_cases hb : (cur.take (cur.length - k)).length > 0
  · rw [if_pos hb] at hacc
    subst hacc
    refine ⟨⟨?_, ?_, ?_, ?_, hgooddrop⟩, ?_⟩
    · rw [List.length_append, hdroplen, List.length_singleton]
      omega
    · rw [chainFromB_append, hchain, Bool.true_and, Nat.zero_add, hsum]
      exact chainFromB_singleton start _ rfl hb (by simp only [htakelen]; omega)
    · rw [sumLens_append, sumLens_singleton]
      simp only [htakelen]
      omega
    · intro sp hsp
      rcases List.mem_append.mp hsp with hmem | hmem
      · exact hgood sp hmem
      · simp only [List.mem_singleton] at hmem
        subst hmem
        exact ⟨homog_take _ hbuf.1, yamok_take _ hbuf.2⟩
    · rw [concatWords_append, concatWords_singleton]
      simp only [List.append_assoc]
      congr 1
      rw [← List.append_assoc, List.take_append_drop]
  · rw [if_neg hb] at hacc
    subst hacc
    have hkn : cur.length = k := by
      rw [htakelen] at hb
      omega
    have hdrop0 : cur.drop (cur.length - k) = cur := by
      rw [hkn, Nat.sub_self, List.drop_zero]
    refine ⟨⟨?_, hchain, ?_, hgood, hgooddrop⟩, ?_⟩
    · rw [List.length_append, hdroplen, List.length_singleton]
      omega
    · omega
    · rw [hdrop0, ← List.append_assoc]

lemma stepInv_cluster {acc : List LaoWordInfo} {cur : List Char} {start i : Nat} {c : Char}
    (h : StateInv acc cur start i) (hn : 2 ≤ cur.length)
    (hlao : cur.all (fun x => isLaoCharacter x) = true)
    (hc : isLaoCharacter c = true) (hcy : (c == 'ໆ') = false) :
    StateInv (handleTwoCharCluster cur c acc i start).1
      (handleTwoCharCluster cur c acc i start).2.1
      (handleTwoCharCluster cur c acc i start).2.2 (i + 1) ∧
    concatWords (handleTwoCharCluster cur c acc i start).1 ++
      (handleTwoCharCluster cur c acc i start).2.1 = concatWords acc ++ cur ++ [c] := by
  have hh : handleTwoCharCluster cur c acc i start =
      (if (cur.take (cur.length - 2)).length > 0
        then acc ++ [⟨cur.take (cur.length - 2), start, i - (2 + 1)⟩] else acc,
       cur.drop (cur.length - 2) ++ [c], i - 2) := by
    unfold handleTwoCharCluster
    simp only [List.length_take]
  rw [hh]
  exact stepInv_dropTail 2 h (by omega) hn hlao hc hcy _ rfl

lemma stepInv_splitLast {acc : List LaoWordInfo} {cur : List Char} {start i : Nat} {c : Char}
    (h : StateInv acc cur start i) (hn : 1 ≤ cur.length)
    (hlao : cur.all (fun x => isLaoCharacter x) = true)
    (hc : isLaoCharacter c = true) (hcy : (c == 'ໆ') = false) :
    StateInv (handleSplitBeforeLast cur c acc i start).1
      (handleSplitBeforeLast cur c acc i start).2.1
      (handleSplitBeforeLast cur c acc i start).2.2 (i + 1) ∧
    concatWords (handleSplitBeforeLast cur c acc i start).1 ++
      (handleSplitBeforeLast cur c acc i start).2.1 = concatWords acc ++ cur ++ [c] := by
  have hh : handleSplitBeforeLast cur c acc i start =
      (if (cur.take (cur.length - 1)).length > 0
        then acc ++ [⟨cur.take (cur.length - 1), start, i - (1 + 1)⟩] else acc,
       cur.drop (cur.length - 1) ++ [c], i - 1) := by
    unfold handleSplitBeforeLast
    constructor
  rw [hh]
  exact stepInv_dropTail 1 h (by omega) hn hlao hc hcy _ rfl

/-- One loop iteration preserves the state invariant and extends the
covered text by the consumed character. -/
lemma splitStep_inv (c : Char) (next : Option Char) {acc : List LaoWordInfo}
    {cur : List Char} {start i : Nat} (h : StateInv acc cur start i) :
    StateInv (splitStep c next i cur start acc).1 (splitStep c next i cur start acc).2.1
      (splitStep c next i cur start acc).2.2 (i + 1) ∧
    concatWords (splitStep c next i cur start acc).1 ++
      (splitStep c next i cur start acc).2.1 = concatWords acc ++ cur ++ [c] := by
  have hbuf : goodWord cur := h.2.2.2.2
  unfold splitStep
  by_cases h1 : (c == ' ') = true
  · rw [if_pos h1]
    have hceq : c = ' ' := by simpa using h1
    subst hceq
    obtain ⟨hchainA, hsumA, hgoodA, hconcatA⟩ := addWordToResult_inv h
    refine ⟨⟨by simp, ?_, ?_, ?_, goodWord_nil⟩, ?_⟩
    · rw [chainFromB_append, hchainA, Bool.true_and, Nat.zero_add, hsumA]
      exact chainFromB_singleton i _ rfl (by simp) (by simp)
    · rw [sumLens_append, sumLens_singleton]
      show sumLens (addWordToResult cur acc i start) + 1 = i + 1
      omega
    · intro sp hsp
      rcases List.mem_append.mp hsp with hmem | hmem
      · exact hgoodA sp hmem
      · simp only [List.mem_singleton] at hmem
        subst hmem
        exact goodWord_singleton ' '
    · show concatWords (addWordToResult cur acc i start ++ [⟨[' '], i, i⟩]) ++ [] = _
      rw [List.append_nil, concatWords_append, concatWords_singleton, hconcatA]
  rw [if_neg h1]
  by_cases h2 : (!isLaoCharacter c) = true
  · rw [if_pos h2]
    by_cases h2a : optIs isLaoCharacter (lastCharOf cur) = true
    · rw [if_pos h2a]
      exact stepInv_flush h c
    · rw [if_neg h2a]
      have hlc : isLaoCharacter c = false := by
        revert h2
        cases isLaoCharacter c <;> simp
      have hcy : (c == 'ໆ') = false := by
        cases hcc : (c == 'ໆ')
        · rfl
        · have hcq : c = 'ໆ' := by simpa using hcc
          rw [hcq] at hlc
          exact absurd hlc (by decide)
      exact stepInv_append h
        ⟨homog_append_nonlao (all_nonlao_of_homog_last hbuf.1 (bool_eq_false h2a)) hlc,
         yamok_append hbuf.2 (Or.inr hcy)⟩
  rw [if_neg h2]
  have hlaoc : isLaoCharacter c = true := by
    revert h2
    cases isLaoCharacter c <;> simp
  by_cases h3 : (c == MAI_YAMOK) = true
  · rw [if_pos h3]
    have hceq : c = 'ໆ' := by simpa [MAI_YAMOK] using h3
    subst hceq
    exact stepInv_flush h MAI_YAMOK
  rw [if_neg h3]
  have hcy : (c == 'ໆ') = false := bool_eq_false (by simpa [MAI_YAMOK] using h3)
  by_cases h4 : LEADING_VOWELS c = true
  · rw [if_pos h4]
    by_cases h4a : (c == 'ເ' && lastCharOf cur == some 'ເ') = true
    · rw [if_pos h4a]
      simp only [Bool.and_eq_true, beq_iff_eq] at h4a
      refine stepInv_append h
        ⟨homog_append_lao (all_lao_of_homog_last hbuf.1 ?_) hlaoc,
         yamok_append hbuf.2 (Or.inr hcy)⟩
      rw [h4a.2]
      decide
    · rw [if_neg h4a]
      exact stepInv_flush h c
  rw [if_neg h4]
  by_cases h5 : (!optIs isLaoCharacter (lastCharOf cur) && cur.length > 0) = true
  · rw [if_pos h5]
    exact stepInv_flush h c
  rw [if_neg h5]
  have hctx : cur.length = 0 ∨ cur.all (fun x => isLaoCharacter x) = true := by
    by_cases hc0 : cur.length = 0
    · exact Or.inl hc0
    · right
      apply all_lao_of_homog_last hbuf.1
      by_contra hopt
      apply h5
      have hfalse : optIs isLaoCharacter (lastCharOf cur) = false := bool_eq_false hopt
      simp [hfalse, Nat.pos_of_ne_zero hc0]
  by_cases h6 : MIDDLE_CHARS c = true
  · rw [if_pos h6]
    by_cases m1 : (cur.length == 0) = true
    · rw [if_pos m1]
      have hc0 : cur = [] := List.length_eq_zero.mp (by simpa using m1)
      subst hc0
      exact stepInv_append h (goodWord_singleton c)
    rw [if_neg m1]
    have hne : cur ≠ [] := by
      intro hnil
      subst hnil
      simp at m1
    have hall : cur.all (fun x => isLaoCharacter x) = true := by
      rcases hctx with h0 | hx
      · exact absurd (List.length_eq_zero.mp h0) hne
      · exact hx
    by_cases m2 : (optIs MIDDLE_CHARS (lastCharOf cur) ||
        (c == 'ັ' && cur.length ≥ 2 && optIs LEADING_VOWELS (secondLastCharOf cur))) = true
    · rw [if_pos m2]
      exact stepInv_append h
        ⟨homog_append_lao hall hlaoc, yamok_append hbuf.2 (Or.inr hcy)⟩
    rw [if_neg m2]
    by_cases m3 : (cur.length ≥ 2 && lastCharOf cur == some 'ວ' &&
        (secondLastCharOf cur == some 'ກ' || secondLastCharOf cur == some 'ຂ' ||
         secondLastCharOf cur == some 'ຄ')) = true
    · rw [if_pos m3]
      simp only [Bool.and_eq_true] at m3
      exact stepInv_cluster h (of_decide_eq_true m3.1.1) hall hlaoc hcy
    rw [if_neg m3]
    by_cases m4 : (cur.length ≥ 2 && lastCharOf cur == some 'ຣ' &&
        (secondLastCharOf cur == some 'ທ' || secondLastCharOf cur == some 'ປ' ||
         secondLastCharOf cur == some 'ກ' || secondLastCharOf cur == some 'ບ' ||
         secondLastCharOf cur == some 'ຟ')) = true
    · rw [if_pos m4]
      simp only [Bool.and_eq_true] at m4
      exact stepInv_cluster h (of_decide_eq_true m4.1.1) hall hlaoc hcy
    rw [if_neg m4]
    by_cases m5 : (cur.length ≥ 2 && secondLastCharOf cur == some 'ຫ' &&
        optIs DIGRAPH_FOLLOWERS (lastCharOf cur)) = true
    · rw [if_pos m5]
      simp only [Bool.and_eq_true] at m5
      exact stepInv_cluster h (of_decide_eq_true m5.1.1) hall hlaoc hcy
    rw [if_neg m5]
    by_cases m6 : (optIs LAO_CONSONANTS (lastCharOf cur) &&
        !(cur.length ≥ 2 && optIs LEADING_VOWELS (secondLastCharOf cur))) = true
    · rw [if_pos m6]
      exact stepInv_splitLast h (List.length_pos.mpr hne) hall hlaoc hcy
    rw [if_neg m6]
    exact stepInv_append h
      ⟨homog_append_lao hall hlaoc, yamok_append hbuf.2 (Or.inr hcy)⟩
  rw [if_neg h6]
  by_cases h7 : ((c == 'ວ' || c == 'ອ') && cur.length > 0 &&
      optIs LAO_CONSONANTS (lastCharOf cur) &&
      optIs (fun n => isLaoCharacter n && LAO_CONSONANTS n) next) = true
  · rw [if_pos h7]
    simp only [Bool.and_eq_true] at h7
    have hpos : 0 < cur.length := of_decide_eq_true h7.1.1.2
    have hall : cur.all (fun x => isLaoCharacter x) = true := by
      rcases hctx with h0 | hx
      · omega
      · exact hx
    exact stepInv_splitLast h hpos hall hlaoc hcy
  rw [if_neg h7]
  rcases hctx with h0 | hall
  · have hnil : cur = [] := List.length_eq_zero.mp h0
    subst hnil
    exact stepInv_append h (goodWord_singleton c)
  · exact stepInv_append h
      ⟨homog_append_lao hall hlaoc, yamok_append hbuf.2 (Or.inr hcy)⟩

/-- The whole scan preserves the invariant: the emitted spans chain from 0,
they cover exactly the already-consumed text followed by the remaining
input, and every span word satisfies the side invariants. -/
lemma splitLoop_inv : ∀ (rest : List Char) {i : Nat} {cur : List Char} {start : Nat}
    {acc : List LaoWordInfo}, StateInv acc cur start i →
    chainFromB 0 (splitLoop rest i cur start acc) = true ∧
    concatWords (splitLoop rest i cur start acc) = concatWords acc ++ cur ++ rest ∧
    ∀ sp ∈ splitLoop rest i cur start acc, goodWord sp.word := by
  intro rest
  induction rest with
  | nil =>
      intro i cur start acc h
      have hbase : splitLoop [] i cur start acc = addWordToResult cur acc i start := rfl
      rw [hbase]
      obtain ⟨hchain, hsum, hgood, hconcat⟩ := addWordToResult_inv h
      exact ⟨hchain, by rw [hconcat, List.append_nil], hgood⟩
  | cons c rest ih =>
      intro i cur start acc h
      have hstep := splitStep_inv c rest.head? h
      have hrec := ih hstep.1
      have hloop : splitLoop (c :: rest) i cur start acc =
          splitLoop rest (i + 1) (splitStep c rest.head? i cur start acc).2.1
            (splitStep c rest.head? i cur start acc).2.2
            (splitStep c rest.head? i cur start acc).1 := rfl
      rw [hloop]
      refine ⟨hrec.1, ?_, hrec.2.2⟩
      rw [hrec.2.1, hstep.2, List.append_assoc (concatWords acc ++ cur),
        List.singleton_append]

/-- Specification of `split`: the result chains contiguously from 0, its
texts concatenate to the stripped input, and every span word is
script-homogeneous with Mai Yamok only initial. -/
lemma split_spec (sentence : List Char) :
    chainFromB 0 (split sentence) = true ∧
    concatWords (split sentence) = removeZeroWidthSpaces sentence ∧
    ∀ sp ∈ split sentence, goodWord sp.word := by
  unfold split
  by_cases h0 : (sentence.length == 0) = true
  · rw [if_pos h0]
    have hnil : sentence = [] := List.length_eq_zero.mp (by simpa using h0)
    subst hnil
    refine ⟨rfl, ?_, by intro sp hsp; simp at hsp⟩
    simp [removeZeroWidthSpaces, concatWords]
  · rw [if_neg h0]
    have hinit : StateInv [] [] 0 0 :=
      ⟨rfl, rfl, rfl, by intro sp hsp; simp at hsp, goodWord_nil⟩
    have hmain := splitLoop_inv (removeZeroWidthSpaces sentence) hinit
    have hfilter : (splitLoop (removeZeroWidthSpaces sentence) 0 [] 0 []).filter
        (fun w => w.word.length > 0) =
        splitLoop (removeZeroWidthSpaces sentence) 0 [] 0 [] := by
      apply List.filter_eq_self.mpr
      intro sp hsp
      exact decide_eq_true (chainFromB_words_ne_nil hmain.1 sp hsp)
    rw [hfilter]
    refine ⟨hmain.1, ?_, hmain.2.2⟩
    simpa using hmain.2.1

/-! ## Validator helper lemmas -/

lemma bnot_true {b : Bool} (h : (!b) = true) : b = false := by
  cases b
  · rfl
  · exact absurd h (by simp)

lemma ne_true_of_false {b : Bool} (h : b = false) : ¬ b = true := by
  simp [h]

/-- On a word that falls through every word-level guard, the validator's
verdict is exactly: the character scan fires no rule, and the consonant
count is between 1 and 4. -/
lemma checkLaoWordGrammar_eq_of_passes {w : List Char}
    (h : GrammarChecker.passesWordGuards w = true) :
    GrammarChecker.checkLaoWordGrammar w =
      (GrammarChecker.scanOk w && !(GrammarChecker.consonantCount w == 0) &&
        !(decide (GrammarChecker.consonantCount w > 4))) := by
  simp only [GrammarChecker.passesWordGuards, Bool.and_eq_true] at h
  obtain ⟨⟨⟨⟨⟨⟨⟨hg1, hg2⟩, hg3⟩, hg4⟩, hg5⟩, hg6⟩, hg7⟩, hg8⟩ := h
  unfold GrammarChecker.checkLaoWordGrammar
  have hg5' : (!GrammarChecker.isLaoCharacter (w.getD 0 ' ')) = false := by
    rw [hg5]
    rfl
  rw [if_neg (ne_true_of_false (bnot_true hg1)), if_neg (ne_true_of_false (bnot_true hg2)),
    if_neg (ne_true_of_false (bnot_true hg3)), if_neg (ne_true_of_false (bnot_true hg4)),
    if_neg (ne_true_of_false hg5'), if_neg (ne_true_of_false (bnot_true hg6)),
    if_neg (ne_true_of_false (bnot_true hg7)), if_neg (ne_true_of_false (bnot_true hg8))]
  by_cases hscan : GrammarChecker.scanOk w = true
  · rw [if_neg (by simp [hscan])]
    by_cases hc0 : GrammarChecker.consonantCount w = 0
    · rw [if_pos (by simp [hc0])]
      simp [hc0]
    · rw [if_neg (by simp [hc0])]
      by_cases hc4 : GrammarChecker.consonantCount w > 4
      · rw [if_pos (by simpa using hc4)]
        simp [hscan, hc0, hc4]
      · rw [if_neg (by simpa using hc4)]
        simp [hscan, hc0, hc4]
  · rw [if_pos (by simp [bool_eq_false hscan])]
    simp [bool_eq_false hscan]

/-- A tone-mark position whose rule-3 sub-checks are violated makes the
per-index rule check fail. -/
lemma toneRule_false {w : List Char} {i : Nat} (c : Char)
    (htone : GrammarChecker.TONE_MARKS_RULE3 c = true)
    (hlead : GrammarChecker.LEADING_VOWELS_RULE1_AND_3 c = false)
    (htop : GrammarChecker.TOP_VOWELS_RULE2 c = false)
    (hg : w.getD i ' ' = c)
    (hviol :
      ¬(GrammarChecker.optIs GrammarChecker.LAO_CONSONANTS
            (GrammarChecker.prevCharAt w i 1) = true ∨
        GrammarChecker.optIs GrammarChecker.LAO_CONSONANTS
            (GrammarChecker.prevCharAt w i 2) = true) ∨
      (w.length ≤ 2 ∧ w.get? (i + 1) = none) ∨
      (i = 1 ∧ w.length < 3) ∨
      (GrammarChecker.LEADING_VOWELS_RULE1_AND_3 (w.getD 0 ' ') = true ∧
       GrammarChecker.optIs GrammarChecker.LAO_CONSONANTS (w.get? (i + 1)) = true ∧
       GrammarChecker.optIs GrammarChecker.LAO_CONSONANTS (w.get? (i + 2)) = true) ∨
      (w.length = 3 ∧
       GrammarChecker.optIs GrammarChecker.LAO_CONSONANTS
         (GrammarChecker.prevCharAt w i 1) = true ∧
       GrammarChecker.optIs GrammarChecker.LAO_CONSONANTS (w.get? (i + 1)) = true)) :
    GrammarChecker.ruleOkAt w i = false := by
  simp only [GrammarChecker.ruleOkAt]
  rw [hg, if_neg (ne_true_of_false hlead), if_neg (ne_true_of_false htop), if_pos htone]
  simp only [List.get?_eq_getElem?, List.getD_eq_getElem?_getD] at hviol
  rcases hviol with hv | hv | hv | hv | hv
  · have h1 : GrammarChecker.optIs GrammarChecker.LAO_CONSONANTS
        (GrammarChecker.prevCharAt w i 1) = false :=
      bool_eq_false fun hx => hv (Or.inl hx)
    have h2 : GrammarChecker.optIs GrammarChecker.LAO_CONSONANTS
        (GrammarChecker.prevCharAt w i 2) = false :=
      bool_eq_false fun hx => hv (Or.inr hx)
    simp [h1, h2]
  · simp [hv.1, hv.2]
  · simp [hv.1, hv.2]
  · simp [hv.1, hv.2.1, hv.2.2]
  · simp [hv.1, hv.2.1, hv.2.2]

/-! ## Claim theorems -/

/-- C1: for every input text, `split` applied to the zero-width-space-stripped
input of length `L` returns spans that are contiguous and ordered by
`startIndex` with matching inclusive end indices (`chainFromB 0`), every
span's text is non-empty, concatenating the span texts in order reproduces
the stripped input exactly, and when `L > 0` the first span starts at 0 and
the last span ends at `L - 1`. -/
theorem segmentation_coverage (input : List Char) :
    concatWords (LaoWordSplitter.split input) =
      LaoWordSplitter.removeZeroWidthSpaces input ∧
    chainFromB 0 (LaoWordSplitter.split input) = true ∧
    (∀ sp ∈ LaoWordSplitter.split input, sp.word ≠ []) ∧
    (LaoWordSplitter.removeZeroWidthSpaces input ≠ [] →
      ∃ sp t, LaoWordSplitter.split input = sp :: t ∧ sp.startIndex = 0 ∧
        ∃ last, (LaoWordSplitter.split input).getLast? = some last ∧
          last.endIndex + 1 = (LaoWordSplitter.removeZeroWidthSpaces input).length) := by
  obtain ⟨hchain, hconcat, hgood⟩ := split_spec input
  refine ⟨hconcat, hchain, ?_, ?_⟩
  · intro sp hsp
    exact List.ne_nil_of_length_pos (chainFromB_words_ne_nil hchain sp hsp)
  · intro hne
    have hne2 : LaoWordSplitter.split input ≠ [] := by
      intro hnil
      rw [hnil] at hconcat
      exact hne (by simpa [concatWords] using hconcat.symm)
    obtain ⟨sp, t, hsp⟩ : ∃ sp t, LaoWordSplitter.split input = sp :: t := by
      cases hq : LaoWordSplitter.split input with
      | nil => exact absurd hq hne2
      | cons a b => exact ⟨a, b, rfl⟩
    refine ⟨sp, t, hsp, chainFromB_head (hsp ▸ hchain), ?_⟩
    cases hgl : (LaoWordSplitter.split input).getLast? with
    | none => exact absurd (List.getLast?_eq_none_iff.mp hgl) hne2
    | some last =>
        refine ⟨last, rfl, ?_⟩
        have h1 := chainFromB_getLast hchain last hgl
        have h2 := length_concatWords (LaoWordSplitter.split input)
        rw [hconcat] at h2
        omega

/-- C1 witness at the concrete input "ປະ". -/
theorem segmentation_coverage_witness :
    LaoWordSplitter.removeZeroWidthSpaces ['ປ', 'ະ'] ≠ [] ∧
    (⟨['ປ', 'ະ'], 0, 1⟩ : LaoWordInfo) ∈ LaoWordSplitter.split ['ປ', 'ະ'] ∧
    (⟨['ປ', 'ະ'], 0, 1⟩ : LaoWordInfo).word ≠ [] ∧
    (∃ sp t, LaoWordSplitter.split ['ປ', 'ະ'] = sp :: t ∧ sp.startIndex = 0 ∧
      ∃ last, (LaoWordSplitter.split ['ປ', 'ະ']).getLast? = some last ∧
        last.endIndex + 1 = (LaoWordSplitter.removeZeroWidthSpaces ['ປ', 'ະ']).length) :=
  ⟨by decide, by decide,
    (segmentation_coverage ['ປ', 'ະ']).2.2.1 ⟨['ປ', 'ະ'], 0, 1⟩ (by decide),
    (segmentation_coverage ['ປ', 'ະ']).2.2.2 (by decide)⟩

/-- C9: every span returned by the splitter is script-homogeneous: all of its
characters lie in the Lao block U+0E80-U+0EFF, or none does. -/
theorem span_script_homogeneity (input : List Char) :
    ∀ sp ∈ LaoWordSplitter.split input, scriptHomogeneous sp.word = true :=
  fun sp hsp => ((split_spec input).2.2 sp hsp).1

/-- C9 witness at the concrete input "ປະ". -/
theorem span_script_homogeneity_witness :
    (⟨['ປ', 'ະ'], 0, 1⟩ : LaoWordInfo) ∈ LaoWordSplitter.split ['ປ', 'ະ'] ∧
    scriptHomogeneous ['ປ', 'ະ'] = true :=
  ⟨by decide, span_script_homogeneity ['ປ', 'ະ'] ⟨['ປ', 'ະ'], 0, 1⟩ (by decide)⟩

/-- C3 counterexample: on the input "ໆກ" the splitter returns the single span
"ໆກ", which contains Mai Yamok and has length 2 — the Mai Yamok guard flushes
the buffer but then keeps "ໆ" as the new in-progress buffer instead of
emitting it and resetting the buffer empty, so a following default-appended
character lands in the same span. -/
theorem yamok_isolation_counterexample :
    LaoWordSplitter.split ['ໆ', 'ກ'] = [⟨['ໆ', 'ກ'], 0, 1⟩] ∧
    ∃ sp ∈ LaoWordSplitter.split ['ໆ', 'ກ'], 'ໆ' ∈ sp.word ∧ 1 < sp.word.length := by
  refine ⟨by decide, ⟨⟨['ໆ', 'ກ'], 0, 1⟩, by decide, by decide, by decide⟩⟩

/-- C3 (amended): every occurrence of ໆ flushes the in-progress buffer and
begins a fresh buffer holding exactly "ໆ" at that position; the span is only
emitted when a later guard flushes it, so a span may extend past the ໆ, but
ໆ can only ever occur as the first character of a returned span. -/
theorem yamok_initial_position (input : List Char) :
    ∀ sp ∈ LaoWordSplitter.split input, ∀ j, sp.word.get? j = some 'ໆ' → j = 0 := by
  intro sp hsp j hj
  have hy : yamokInitialOnly sp.word = true := ((split_spec input).2.2 sp hsp).2
  by_contra hj0
  have hj1 : 1 ≤ j := Nat.one_le_iff_ne_zero.mpr hj0
  have hmem : 'ໆ' ∈ sp.word.drop 1 := by
    have hget : (sp.word.drop 1).get? (j - 1) = some 'ໆ' := by
      rw [List.get?_eq_getElem?, List.getElem?_drop]
      have h1j : 1 + (j - 1) = j := by omega
      rw [h1j, ← List.get?_eq_getElem?]
      exact hj
    exact List.get?_mem hget
  have := List.all_eq_true.mp hy 'ໆ' hmem
  simp at this

/-- C3 amended-claim witness at the concrete input "ໆ". -/
theorem yamok_initial_position_witness :
    (⟨['ໆ'], 0, 0⟩ : LaoWordInfo) ∈ LaoWordSplitter.split ['ໆ'] ∧
    (['ໆ'].get? 0 = some 'ໆ') ∧ (0 : Nat) = 0 :=
  ⟨by decide, by decide,
    yamok_initial_position ['ໆ'] ⟨['ໆ'], 0, 0⟩ (by decide) 0 (by decide)⟩

/-- C4: the checker returns exactly one result per span of the splitter, in
the same order, preserving `word`, `startIndex` and `endIndex`, with
`grammarCorrect` equal to the validator's verdict on the span's text. -/
theorem checker_annotates_spans (input : List Char) :
    (laoGrammarChecker input).length = (LaoWordSplitter.split input).length ∧
    ∀ i sp, (LaoWordSplitter.split input).get? i = some sp →
      (laoGrammarChecker input).get? i =
        some ⟨sp.word, sp.startIndex, sp.endIndex,
          GrammarChecker.checkLaoWordGrammar sp.word⟩ := by
  constructor
  · simp [laoGrammarChecker]
  · intro i sp hsp
    rw [List.get?_eq_getElem?] at hsp ⊢
    simp [laoGrammarChecker, List.getElem?_map, hsp]

/-- C4 witness at the concrete input "ກ". -/
theorem checker_annotates_spans_witness :
    (LaoWordSplitter.split ['ກ']).get? 0 = some ⟨['ກ'], 0, 0⟩ ∧
    (laoGrammarChecker ['ກ']).get? 0 =
      some ⟨['ກ'], 0, 0, GrammarChecker.checkLaoWordGrammar ['ກ']⟩ :=
  ⟨by decide, (checker_annotates_spans ['ກ']).2 0 ⟨['ກ'], 0, 0⟩ (by decide)⟩

/-- C8: both operations are total functions of the embedding — every input,
including the empty one, yields a result — and the empty input yields the
empty result sequence. -/
theorem totality_and_empty :
    laoGrammarChecker [] = [] ∧ LaoWordSplitter.split [] = [] ∧
    ∀ input : List Char, ∃ result, laoGrammarChecker input = result :=
  ⟨rfl, rfl, fun input => ⟨laoGrammarChecker input, rfl⟩⟩

/-- C10: the bare doubled leading vowel "ເເ" is rejected: the identical-pair
guard, rule 1 and rule 8 all exempt it and the scan fires no rule, but the
word contains no consonant, so the final consonant-count check returns
false; `check` therefore marks a bare "ເເ" span incorrect. -/
theorem doubled_leading_vowel_rejected :
    GrammarChecker.checkLaoWordGrammar ['ເ', 'ເ'] = false ∧
    GrammarChecker.scanOk ['ເ', 'ເ'] = true ∧
    GrammarChecker.consonantCount ['ເ', 'ເ'] = 0 ∧
    laoGrammarChecker ['ເ', 'ເ'] = [⟨['ເ', 'ເ'], 0, 1, false⟩] := by
  refine ⟨by decide, by decide, by decide, by decide⟩

/-- C2 counterexample: on the input "ປ ທ້ດ ລວ" the checker marks the spans
ທ້ດ and ລວ grammatically incorrect, not correct as the claim states (the
repository's own test suite expects both to be `false`). -/
theorem check_example2_counterexample :
    ((laoGrammarChecker ['ປ', ' ', 'ທ', '້', 'ດ', ' ', 'ລ', 'ວ']).get? 2).map
        (fun r => (r.word, r.grammarCorrect)) = some (['ທ', '້', 'ດ'], false) ∧
    ((laoGrammarChecker ['ປ', ' ', 'ທ', '້', 'ດ', ' ', 'ລ', 'ວ']).get? 4).map
        (fun r => (r.word, r.grammarCorrect)) = some (['ລ', 'ວ'], false) := by
  refine ⟨by decide, by decide⟩

/-- C2 (amended): `check("ປ ທ້ດ ລວ")` marks ປ invalid (single bare
consonant), ທ້ດ invalid (rule 3.5: consonant-tone-consonant in a length-3
word), and ລວ invalid (two bare consonants, guard 4.1). -/
theorem check_example2 :
    laoGrammarChecker ['ປ', ' ', 'ທ', '້', 'ດ', ' ', 'ລ', 'ວ'] =
      [⟨['ປ'], 0, 0, false⟩, ⟨[' '], 1, 1, true⟩, ⟨['ທ', '້', 'ດ'], 2, 4, false⟩,
       ⟨[' '], 5, 5, true⟩, ⟨['ລ', 'ວ'], 6, 7, false⟩] := by
  decide

/-- C5: a two-character word whose first character is Lao is invalid when
both characters are consonants, and invalid when both characters are
identical and the word is not "ເເ"; in particular `check("ກກ")` yields the
single word ກກ marked invalid. -/
theorem two_char_word_rules :
    (∀ a b : Char, GrammarChecker.isLaoCharacter a = true →
      ((GrammarChecker.LAO_CONSONANTS a = true ∧ GrammarChecker.LAO_CONSONANTS b = true) →
        GrammarChecker.checkLaoWordGrammar [a, b] = false) ∧
      ((a = b ∧ ([a, b] : List Char) ≠ ['ເ', 'ເ']) →
        GrammarChecker.checkLaoWordGrammar [a, b] = false)) ∧
    laoGrammarChecker ['ກ', 'ກ'] = [⟨['ກ', 'ກ'], 0, 1, false⟩] := by
  constructor
  · intro a b hlao
    constructor
    · rintro ⟨ha, hb⟩
      unfold GrammarChecker.checkLaoWordGrammar
      rw [if_neg (by simp), if_neg (by simp), if_neg (by simp), if_neg (by simp),
        if_neg (by simp [hlao]), if_pos (by simp [ha, hb])]
    · rintro ⟨hab, hne⟩
      subst hab
      unfold GrammarChecker.checkLaoWordGrammar
      rw [if_neg (by simp), if_neg (by simp), if_neg (by simp), if_neg (by simp),
        if_neg (by simp [hlao])]
      by_cases hcons : GrammarChecker.LAO_CONSONANTS a = true
      · rw [if_pos (by simp [hcons])]
      · rw [if_neg (by simp [bool_eq_false hcons]),
          if_pos (by simp [beq_eq_false_iff_ne.mpr hne])]
  · decide

/-- C5 witness at a = b = ກ. -/
theorem two_char_word_rules_witness :
    GrammarChecker.isLaoCharacter 'ກ' = true ∧
    GrammarChecker.checkLaoWordGrammar ['ກ', 'ກ'] = false :=
  ⟨by decide, (two_char_word_rules.1 'ກ' 'ກ' (by decide)).1 ⟨by decide, by decide⟩⟩

/-- C6: on a word that reaches the character scan, a tone mark ່ or ້ at
position `i` makes the validator return false when neither of the two
preceding characters is a consonant (rule 3.1), when the word length is at
most 2 and no next character exists (3.2), when the tone mark sits at index 1
of a word shorter than 3 (3.3), when the word opens with a leading vowel and
the two characters after the tone mark are both consonants (3.4), or when the
word has length 3 and the characters around the tone mark are both consonants
(3.5); in particular `check("ກ້")` marks ກ້ invalid. -/
theorem tone_mark_rules :
    (∀ (w : List Char) (i : Nat),
      GrammarChecker.passesWordGuards w = true →
      (w.get? i = some '່' ∨ w.get? i = some '້') →
      (¬(GrammarChecker.optIs GrammarChecker.LAO_CONSONANTS
            (GrammarChecker.prevCharAt w i 1) = true ∨
         GrammarChecker.optIs GrammarChecker.LAO_CONSONANTS
            (GrammarChecker.prevCharAt w i 2) = true) ∨
       (w.length ≤ 2 ∧ w.get? (i + 1) = none) ∨
       (i = 1 ∧ w.length < 3) ∨
       (GrammarChecker.LEADING_VOWELS_RULE1_AND_3 (w.getD 0 ' ') = true ∧
        GrammarChecker.optIs GrammarChecker.LAO_CONSONANTS (w.get? (i + 1)) = true ∧
        GrammarChecker.optIs GrammarChecker.LAO_CONSONANTS (w.get? (i + 2)) = true) ∨
       (w.length = 3 ∧
        GrammarChecker.optIs GrammarChecker.LAO_CONSONANTS
          (GrammarChecker.prevCharAt w i 1) = true ∧
        GrammarChecker.optIs GrammarChecker.LAO_CONSONANTS (w.get? (i + 1)) = true)) →
      GrammarChecker.checkLaoWordGrammar w = false) ∧
    laoGrammarChecker ['ກ', '້'] = [⟨['ກ', '້'], 0, 1, false⟩] := by
  constructor
  · intro w i hpass hc hviol
    have hi : i < w.length := by
      rcases hc with hc | hc <;>
        exact (List.get?_eq_some.mp hc).1
    have hgd : w.getD i ' ' = '່' ∨ w.getD i ' ' = '້' := by
      rcases hc with hc | hc
      · left
        rw [List.getD_eq_getElem?_getD, ← List.get?_eq_getElem?, hc]
        rfl
      · right
        rw [List.getD_eq_getElem?_getD, ← List.get?_eq_getElem?, hc]
        rfl
    have hrule : GrammarChecker.ruleOkAt w i = false := by
      rcases hgd with hg | hg
      · exact toneRule_false '່' (by decide) (by decide) (by decide) hg hviol
      · exact toneRule_false '້' (by decide) (by decide) (by decide) hg hviol
    have hscan : GrammarChecker.scanOk w = false := by
      apply bool_eq_false
      intro hs
      have hall := List.all_eq_true.mp hs i (List.mem_range.mpr hi)
      rw [hrule] at hall
      exact absurd hall (by simp)
    rw [checkLaoWordGrammar_eq_of_passes hpass, hscan]
    rfl
  · decide

/-- C6 witness: the word ກ້ with the tone mark at index 1 violating
sub-check 3.2. -/
theorem tone_mark_rules_witness :
    GrammarChecker.passesWordGuards ['ກ', '້'] = true ∧
    GrammarChecker.checkLaoWordGrammar ['ກ', '້'] = false :=
  ⟨by decide,
    tone_mark_rules.1 ['ກ', '້'] 1 (by decide) (Or.inr (by decide))
      (Or.inr (Or.inl ⟨by decide, by decide⟩))⟩

/-- C7: on a word that passes every word-level guard and whose character scan
fires no rule, the validator returns true exactly when the word's consonant
count lies between 1 and 4. -/
theorem consonant_count_final (w : List Char)
    (hpass : GrammarChecker.passesWordGuards w = true)
    (hscan : GrammarChecker.scanOk w = true) :
    GrammarChecker.checkLaoWordGrammar w = true ↔
      (1 ≤ GrammarChecker.consonantCount w ∧ GrammarChecker.consonantCount w ≤ 4) := by
  rw [checkLaoWordGrammar_eq_of_passes hpass, hscan]
  simp only [Bool.true_and, Bool.and_eq_true, Bool.not_eq_true', beq_eq_false_iff_ne,
    decide_eq_false_iff_not]
  omega

/-- C7 witness at the word ກາ (one consonant, clean scan). -/
theorem consonant_count_final_witness :
    GrammarChecker.passesWordGuards ['ກ', 'າ'] = true ∧
    GrammarChecker.scanOk ['ກ', 'າ'] = true ∧
    (GrammarChecker.checkLaoWordGrammar ['ກ', 'າ'] = true ↔
      (1 ≤ GrammarChecker.consonantCount ['ກ', 'າ'] ∧
       GrammarChecker.consonantCount ['ກ', 'າ'] ≤ 4)) :=
  ⟨by decide, by decide, consonant_count_final ['ກ', 'າ'] (by decide) (by decide)⟩

end LaoChecker
